import Mathlib

/-!
Verification of the data-aggregation core of the F&B sales analytics
dashboard (file src/data_utils.py, class DataProcessor).  The pandas
DataFrame held in DataProcessor.df is modelled as a list of rows; pandas
float columns are modelled by PFloat (exact rationals plus the IEEE
specials that pandas arithmetic can produce); groupby/agg pipelines are
modelled by explicit key extraction, sorting and per-group folds.
-/

namespace DSCA

/-- Value model for a pandas float cell: a finite value (idealised as an
exact rational), positive or negative infinity, or NaN.  In pandas,
dividing a positive value by zero yields infinity and dividing zero by
zero yields NaN; no exception is raised. -/
inductive PFloat where
  | val (q : ℚ)
  | inf
  | neginf
  | nan
deriving DecidableEq, Repr

/-- Pandas elementwise division of float columns, as in
df.revenue / df.qty in DataProcessor cleaning. -/
def pdiv (a b : ℚ) : PFloat :=
  if b ≠ 0 then .val (a / b)
  else if 0 < a then .inf
  else if a < 0 then .neginf
  else .nan

/-- Finite part of a PFloat; 0 on the non-finite values.  Used only where
a hypothesis guarantees the value is finite. -/
def PFloat.toRat : PFloat → ℚ
  | .val q => q
  | _ => 0

/-- Tests for the NaN sentinel. -/
def PFloat.isNan : PFloat → Bool
  | .nan => true
  | _ => false

/-- Tests for a finite value. -/
def PFloat.isVal : PFloat → Bool
  | .val _ => true
  | _ => false

/-- IEEE-style negation. -/
def pneg : PFloat → PFloat
  | .val q => .val (-q)
  | .inf => .neginf
  | .neginf => .inf
  | .nan => .nan

/-- IEEE-style addition, as performed by numpy on float cells. -/
def padd : PFloat → PFloat → PFloat
  | .nan, _ => .nan
  | _, .nan => .nan
  | .inf, .neginf => .nan
  | .neginf, .inf => .nan
  | .inf, _ => .inf
  | _, .inf => .inf
  | .neginf, _ => .neginf
  | _, .neginf => .neginf
  | .val a, .val b => .val (a + b)

/-- IEEE-style subtraction. -/
def psub (a b : PFloat) : PFloat := padd a (pneg b)

/-- IEEE-style multiplication by a rational scalar (0 times an infinity
is NaN). -/
def pmulq (c : ℚ) : PFloat → PFloat
  | .val a => .val (c * a)
  | .inf => if 0 < c then .inf else if c < 0 then .neginf else .nan
  | .neginf => if 0 < c then .neginf else if c < 0 then .inf else .nan
  | .nan => .nan

/-- Mean of a float column as computed by pandas mean / groupby-agg mean:
NaN entries are skipped; an infinity among the remaining entries
propagates; the mean of no entries is NaN. -/
def pmean (xs : List PFloat) : PFloat :=
  let fin := xs.filter (fun x => !x.isNan)
  if fin = [] then .nan
  else if PFloat.inf ∈ fin ∧ PFloat.neginf ∈ fin then .nan
  else if PFloat.inf ∈ fin then .inf
  else if PFloat.neginf ∈ fin then .neginf
  else .val ((fin.map PFloat.toRat).sum / fin.length)

/-- Round-half-to-even to an integer, the rounding rule used by
numpy/pandas round. -/
def rhe (q : ℚ) : ℤ :=
  if q - ⌊q⌋ < 1 / 2 then ⌊q⌋
  else if 1 / 2 < q - ⌊q⌋ then ⌊q⌋ + 1
  else if ⌊q⌋ % 2 = 0 then ⌊q⌋ else ⌊q⌋ + 1

/-- Pandas round(k): round-half-even at the k-th decimal place. -/
def roundQ (k : ℕ) (q : ℚ) : ℚ := (rhe (q * 10 ^ k) : ℚ) / 10 ^ k

/-- Pandas round(2) on a float cell: infinities and NaN are unchanged. -/
def PFloat.round2 : PFloat → PFloat
  | .val q => .val (roundQ 2 q)
  | x => x

/-- Calendar date, the value of the parsed date column. -/
structure Date where
  y : ℕ
  m : ℕ
  d : ℕ
deriving DecidableEq, Repr

/-- Chronological order on dates (lexicographic on year, month, day). -/
def Date.le (a b : Date) : Prop :=
  a.y < b.y ∨ (a.y = b.y ∧ (a.m < b.m ∨ (a.m = b.m ∧ a.d ≤ b.d)))

instance : DecidableRel Date.le := fun a b => by
  unfold Date.le
  infer_instance

instance : IsTotal Date Date.le :=
  ⟨by intro a b; unfold Date.le; omega⟩

instance : IsTrans Date Date.le :=
  ⟨by intro a b c; unfold Date.le; omega⟩

theorem Date.le_antisymm {a b : Date} (h1 : Date.le a b) (h2 : Date.le b a) : a = b := by
  obtain ⟨ya, ma, da⟩ := a
  obtain ⟨yb, mb, db⟩ := b
  simp only [Date.le] at h1 h2
  simp only [Date.mk.injEq]
  omega

/-- Leap-year test for the Gregorian calendar. -/
def isLeap (y : ℕ) : Bool := (y % 4 == 0 && !(y % 100 == 0)) || y % 400 == 0

/-- Days in the year strictly before month m (1-based). -/
def daysBeforeMonth (leap : Bool) (m : ℕ) : ℕ :=
  [0, 31, 59, 90, 120, 151, 181, 212, 243, 273, 304, 334].getD (m - 1) 0 +
    (if leap && decide (2 < m) then 1 else 0)

/-- Ordinal day of the year (1-based). -/
def dayOfYear (dt : Date) : ℕ := daysBeforeMonth (isLeap dt.y) dt.m + dt.d

/-- Day of week by Sakamoto's method, 0 = Sunday. -/
def dayOfWeekIdx (dt : Date) : ℕ :=
  let t := [0, 3, 2, 5, 0, 3, 5, 1, 4, 6, 2, 4]
  let y := dt.y - (if dt.m < 3 then 1 else 0)
  (y + y / 4 + y / 400 + t.getD (dt.m - 1) 0 + dt.d - y / 100) % 7

/-- Weekday name as produced by pandas day_name(). -/
def dayName (dt : Date) : String :=
  ["Sunday", "Monday", "Tuesday", "Wednesday", "Thursday", "Friday",
    "Saturday"].getD (dayOfWeekIdx dt) ""

/-- ISO weekday, Monday = 1 .. Sunday = 7. -/
def isoWeekday (dt : Date) : ℕ :=
  if dayOfWeekIdx dt = 0 then 7 else dayOfWeekIdx dt

/-- Number of ISO weeks (52 or 53) in a year. -/
def isoWeeksInYear (y : ℕ) : ℕ :=
  let p := fun (yy : ℕ) => (yy + yy / 4 + yy / 400 - yy / 100) % 7
  if p y = 4 ∨ p (y - 1) = 3 then 53 else 52

/-- ISO-8601 week number, as produced by pandas isocalendar().week. -/
def isoWeek (dt : Date) : ℕ :=
  let w := (dayOfYear dt + 10 - isoWeekday dt) / 7
  if w < 1 then isoWeeksInYear (dt.y - 1)
  else if isoWeeksInYear dt.y < w then 1
  else w

/-- First-occurrence deduplication pass with an accumulator of already
seen keys. -/
def uniqueAux {α : Type} [DecidableEq α] (seen : List α) : List α → List α
  | [] => []
  | x :: xs => if x ∈ seen then uniqueAux seen xs else x :: uniqueAux (x :: seen) xs

/-- Distinct values in first-occurrence order, the order produced by
pandas unique(). -/
def uniqueFirst {α : Type} [DecidableEq α] (l : List α) : List α := uniqueAux [] l

/-- Grouping keys of a groupby(column): the distinct non-missing values of
the column, sorted ascending (pandas groupby drops missing keys and sorts
the group keys by default). -/
def groupKeys {α κ : Type} [DecidableEq κ] (r : κ → κ → Prop) [DecidableRel r]
    (t : List α) (f : α → Option κ) : List κ :=
  List.insertionSort r (uniqueFirst (t.filterMap f))

/-- Rows of one group: the rows whose key column holds exactly k. -/
def groupRows {α κ : Type} [DecidableEq κ] (t : List α) (f : α → Option κ) (k : κ) :
    List α :=
  t.filter (fun x => decide (f x = some k))

/-- Sum of a rational column over a list of rows. -/
def gsum {α : Type} (t : List α) (g : α → ℚ) : ℚ := (t.map g).sum

/-- Mean of a rational column, as pandas mean on an all-finite column. -/
def meanQ (xs : List ℚ) : ℚ := xs.sum / xs.length

/-- Ascending comparison by a rational sort key. -/
def byAsc {α : Type} (v : α → ℚ) (a b : α) : Prop := v a ≤ v b

instance {α : Type} (v : α → ℚ) : DecidableRel (byAsc v) :=
  fun a b => inferInstanceAs (Decidable (v a ≤ v b))

/-- Descending comparison by a rational sort key; with the stable
insertion sort this realises nlargest with keep = first. -/
def byDesc {α : Type} (v : α → ℚ) (a b : α) : Prop := v b ≤ v a

instance {α : Type} (v : α → ℚ) : DecidableRel (byDesc v) :=
  fun a b => inferInstanceAs (Decidable (v b ≤ v a))

/-- Pandas nlargest(n) on records valued by v: stable descending sort,
then the first n records. -/
def nlargestBy {α : Type} (n : ℕ) (v : α → ℚ) (l : List α) : List α :=
  (List.insertionSort (byDesc v) l).take n

/-- Pandas nsmallest(n): stable ascending sort, then the first n. -/
def nsmallestBy {α : Type} (n : ℕ) (v : α → ℚ) (l : List α) : List α :=
  (List.insertionSort (byAsc v) l).take n

/-- Order on ℚ packaged with its decidability instance for sorting. -/
def qAsc (a b : ℚ) : Prop := a ≤ b

instance : DecidableRel qAsc := fun a b => inferInstanceAs (Decidable (a ≤ b))

instance : IsTotal ℚ qAsc := ⟨fun a b => le_total a b⟩

instance : IsTrans ℚ qAsc := ⟨fun _ _ _ h1 h2 => le_trans h1 h2⟩

/-- Pandas quantile(p) with the default linear interpolation, over a
non-empty all-finite column; 0 on an empty column (pandas yields NaN
there, and no caller in scope reads that value off an empty column). -/
def quantileQ (xs : List ℚ) (p : ℚ) : ℚ :=
  let s := List.insertionSort qAsc xs
  if s.length = 0 then 0
  else
    let pos := p * ((s.length : ℚ) - 1)
    let i := ⌊pos⌋.toNat
    let lo := s.getD i 0
    let hi := s.getD (i + 1) lo
    lo + (pos - ⌊pos⌋) * (hi - lo)

/-- Byte order on characters (Python compares strings by code point). -/
def clistLeB : List Char → List Char → Bool
  | [], _ => true
  | _ :: _, [] => false
  | a :: as, b :: bs => if a = b then clistLeB as bs else decide (a.toNat < b.toNat)

/-- Lexicographic order on strings, used for sorted string group keys. -/
def strLe (a b : String) : Prop := clistLeB a.data b.data = true

instance : DecidableRel strLe := fun a b =>
  inferInstanceAs (Decidable (clistLeB a.data b.data = true))

/-- Ascending order on ℕ group keys (month numbers). -/
def natAsc (a b : ℕ) : Prop := a ≤ b

instance : DecidableRel natAsc := fun a b => inferInstanceAs (Decidable (a ≤ b))

/-- One row of the raw CSV input.  The date cell is none when its text is
unparseable; the three label cells are none when the CSV cell is missing
(pandas reads a missing cell as NaN). -/
structure RawRow where
  date : Option Date
  store : Option String
  menu_item : Option String
  revenue : ℚ
  qty : ℚ
  customer_segment : Option String
deriving DecidableEq, Repr

/-- The raw table returned by read_csv: which of the six required columns
are present, and the row data. -/
structure RawTable where
  hasDate : Bool
  hasStore : Bool
  hasMenuItem : Bool
  hasRevenue : Bool
  hasQty : Bool
  hasSegment : Bool
  rows : List RawRow
deriving DecidableEq, Repr

/-- One row of the processed DataFrame after DataProcessor clean step:
the six input columns plus the derived columns is_outlier, avg_price,
month, day_of_week and week. -/
structure Row where
  date : Date
  store : Option String
  menu_item : Option String
  revenue : ℚ
  qty : ℚ
  customer_segment : Option String
  is_outlier : Bool
  avg_price : PFloat
  month : ℕ
  day_of_week : String
  week : ℕ
deriving DecidableEq, Repr

/-- The processed DataFrame of DataProcessor. -/
abbrev Table := List Row

/-- The derived-column computation of DataProcessor clean step: quartile
outlier flags over the whole revenue column, avg_price = revenue / qty
(an IEEE infinity or NaN when qty = 0 — pandas does not raise), and the
calendar columns.  Assumes every date parsed (the stage at which these
columns exist in the pipeline). -/
def cleanRows (raw : RawTable) : Table :=
  let revs := raw.rows.map (fun r => r.revenue)
  let q1 := quantileQ revs (1 / 4)
  let q3 := quantileQ revs (3 / 4)
  let lowerBound := q1 - 3 / 2 * (q3 - q1)
  let upperBound := q3 + 3 / 2 * (q3 - q1)
  raw.rows.map (fun r =>
    let dt := r.date.getD ⟨1970, 1, 1⟩
    { date := dt
      store := r.store
      menu_item := r.menu_item
      revenue := r.revenue
      qty := r.qty
      customer_segment := r.customer_segment
      is_outlier := decide (r.revenue < lowerBound) || decide (upperBound < r.revenue)
      avg_price := pdiv r.revenue r.qty
      month := dt.m
      day_of_week := dayName dt
      week := isoWeek dt })

/-- One record of the daily_trends list of get_sales_trends. -/
structure DailyEntry where
  date : Date
  revenue : ℚ
  qty : ℚ
deriving DecidableEq, Repr

/-- One record of the monthly_trends list. -/
structure MonthlyEntry where
  month : ℕ
  revenue : ℚ
  qty : ℚ
deriving DecidableEq, Repr

/-- One record of the weekly_patterns list (day-of-week means). -/
structure WeeklyEntry where
  day_of_week : String
  revenue : ℚ
  qty : ℚ
deriving DecidableEq, Repr

/-- The record set returned by get_sales_trends on loaded data. -/
structure TrendsResult where
  daily_trends : List DailyEntry
  monthly_trends : List MonthlyEntry
  weekly_patterns : List WeeklyEntry
deriving DecidableEq, Repr

/-- The daily_trends block: groupby exact date, revenue and qty summed,
keys ascending. -/
def dailyTrendsOf (t : Table) : List DailyEntry :=
  (groupKeys Date.le t (fun r => some r.date)).map (fun d =>
    let g := groupRows t (fun r => some r.date) d
    ⟨d, gsum g (fun r => r.revenue), gsum g (fun r => r.qty)⟩)

/-- The monthly_trends block: groupby month, revenue and qty summed. -/
def monthlyTrendsOf (t : Table) : List MonthlyEntry :=
  (groupKeys natAsc t (fun r => some r.month)).map (fun m =>
    let g := groupRows t (fun r => some r.month) m
    ⟨m, gsum g (fun r => r.revenue), gsum g (fun r => r.qty)⟩)

/-- The weekly_patterns block: groupby day_of_week, revenue and qty
averaged. -/
def weeklyPatternsOf (t : Table) : List WeeklyEntry :=
  (groupKeys strLe t (fun r => some r.day_of_week)).map (fun w =>
    let g := groupRows t (fun r => some r.day_of_week) w
    ⟨w, meanQ (g.map (fun r => r.revenue)), meanQ (g.map (fun r => r.qty))⟩)

/-- DataProcessor.get_sales_trends: the empty dict when no table is
loaded, otherwise the three grouped record sets. -/
def getSalesTrends (df : Option Table) : Option TrendsResult :=
  df.map (fun t => ⟨dailyTrendsOf t, monthlyTrendsOf t, weeklyPatternsOf t⟩)

/-- One record of the per-item menu_performance table. -/
structure MenuRecord where
  menu_item : String
  total_revenue : ℚ
  avg_revenue : ℚ
  frequency : ℕ
  total_qty : ℚ
  avg_price : PFloat
  revenue_per_order : ℚ
  popularity_score : ℚ
  performance_category : String
deriving DecidableEq, Repr

/-- A row of the top_performers / low_performers extracts. -/
structure TopRecord where
  menu_item : String
  total_revenue : ℚ
  total_qty : ℚ
deriving DecidableEq, Repr

/-- The record set returned by analyze_menu_performance on loaded data. -/
structure MenuResult where
  menu_performance : List MenuRecord
  top_performers : List TopRecord
  low_performers : List TopRecord
deriving DecidableEq, Repr

/-- The grouped, rounded base columns of the menu analysis (sum, mean and
count of revenue, sum of qty, mean of avg_price, rounded to 2 decimals). -/
def menuBase (t : Table) :
    List (String × ℚ × ℚ × ℕ × ℚ × PFloat) :=
  (groupKeys strLe t (fun r => r.menu_item)).map (fun k =>
    let g := groupRows t (fun r => r.menu_item) k
    (k, roundQ 2 (gsum g (fun r => r.revenue)),
      roundQ 2 (meanQ (g.map (fun r => r.revenue))),
      g.length,
      roundQ 2 (gsum g (fun r => r.qty)),
      (pmean (g.map (fun r => r.avg_price))).round2))

/-- The per-item records of analyze_menu_performance, with the derived
metrics and the quantile-based performance category. -/
def menuRecordsOf (t : Table) : List MenuRecord :=
  let base := menuBase t
  let maxFreq : ℕ := (base.map (fun b => b.2.2.2.1)).foldr max 0
  let totals := base.map (fun b => b.2.1)
  let q80 := quantileQ totals (4 / 5)
  let q20 := quantileQ totals (1 / 5)
  base.map (fun b =>
    { menu_item := b.1
      total_revenue := b.2.1
      avg_revenue := b.2.2.1
      frequency := b.2.2.2.1
      total_qty := b.2.2.2.2.1
      avg_price := b.2.2.2.2.2
      revenue_per_order := b.2.1 / (b.2.2.2.1 : ℚ)
      popularity_score := ((b.2.2.2.1 : ℚ) / (maxFreq : ℚ)) * 100
      performance_category :=
        if q80 < b.2.1 then "High Performer"
        else if b.2.1 < q20 then "Low Performer"
        else "Average" })

/-- DataProcessor.analyze_menu_performance: the empty dict when no table
is loaded, otherwise the per-item records plus the nlargest(10) and
nsmallest(5) extracts by total_revenue. -/
def analyzeMenuPerformance (df : Option Table) : Option MenuResult :=
  df.map (fun t =>
    let recs := menuRecordsOf t
    { menu_performance := recs
      top_performers := (nlargestBy 10 (fun m => m.total_revenue) recs).map
        (fun m => ⟨m.menu_item, m.total_revenue, m.total_qty⟩)
      low_performers := (nsmallestBy 5 (fun m => m.total_revenue) recs).map
        (fun m => ⟨m.menu_item, m.total_revenue, m.total_qty⟩) })

/-- Order on float cells used by pandas min / max / quantile after NaN
entries are dropped: -inf below every finite value, +inf above.  The
NaN case is arbitrary; callers sort NaN-free lists. -/
def pfLeB : PFloat → PFloat → Bool
  | .nan, _ => true
  | _, .nan => false
  | .neginf, _ => true
  | _, .neginf => false
  | _, .inf => true
  | .inf, _ => false
  | .val a, .val b => decide (a ≤ b)

/-- Propositional form of pfLeB for the sorting machinery. -/
def pfLe (a b : PFloat) : Prop := pfLeB a b = true

instance : DecidableRel pfLe := fun a b =>
  inferInstanceAs (Decidable (pfLeB a b = true))

/-- Pandas quantile(p) over a float column: NaN entries dropped, linear
interpolation between the two bracketing order statistics (exact on
all-finite columns; NaN on an empty column). -/
def quantilePF (xs : List PFloat) (p : ℚ) : PFloat :=
  let fin := xs.filter (fun x => !x.isNan)
  let s := List.insertionSort pfLe fin
  if s.length = 0 then .nan
  else
    let pos := p * ((s.length : ℚ) - 1)
    let i := ⌊pos⌋.toNat
    let lo := s.getD i .nan
    let hi := s.getD (i + 1) lo
    padd lo (pmulq (pos - ⌊pos⌋) (psub hi lo))

/-- Pandas min over a float column (NaN skipped; NaN when empty). -/
def pfminOf (xs : List PFloat) : PFloat :=
  (List.insertionSort pfLe (xs.filter (fun x => !x.isNan))).getD 0 .nan

/-- Pandas max over a float column (NaN skipped; NaN when empty). -/
def pfmaxOf (xs : List PFloat) : PFloat :=
  ((List.insertionSort pfLe (xs.filter (fun x => !x.isNan))).getLast?).getD .nan

/-- Sample variance (ddof = 1) of an all-finite column. -/
def sampleVarQ (ys : List ℚ) : ℚ :=
  ((ys.map (fun y => (y - meanQ ys) ^ 2)).sum) / ((ys.length : ℚ) - 1)

/-- A real-valued statistic cell: a real number or NaN.  Real-valued
because standard deviations and correlations involve square roots. -/
inductive RFloat where
  | val (x : ℝ)
  | nan

/-- Pandas sample standard deviation of a float column: NaN entries are
skipped; NaN when fewer than two entries remain or an infinity occurs. -/
noncomputable def stdOf (xs : List PFloat) : RFloat :=
  let fin := xs.filter (fun x => !x.isNan)
  if fin.length ≤ 1 then .nan
  else if PFloat.inf ∈ fin ∨ PFloat.neginf ∈ fin then .nan
  else .val (Real.sqrt ((sampleVarQ (fin.map PFloat.toRat) : ℚ) : ℝ))

/-- One column of the describe() block of analyze_customer_segments. -/
structure DescribeRow where
  count : ℕ
  mean : PFloat
  std : RFloat
  min : PFloat
  q25 : PFloat
  q50 : PFloat
  q75 : PFloat
  max : PFloat

/-- The describe() statistics of one avg_price group. -/
noncomputable def describeCol (xs : List PFloat) : DescribeRow :=
  { count := (xs.filter (fun x => !x.isNan)).length
    mean := pmean xs
    std := stdOf xs
    min := pfminOf xs
    q25 := quantilePF xs (1 / 4)
    q50 := quantilePF xs (1 / 2)
    q75 := quantilePF xs (3 / 4)
    max := pfmaxOf xs }

/-- One record of the segment_performance table. -/
structure SegmentRecord where
  customer_segment : String
  total_revenue : ℚ
  avg_revenue_per_transaction : ℚ
  transaction_count : ℕ
  total_qty : ℚ
  avg_qty_per_transaction : ℚ
  avg_price_per_item : PFloat
  revenue_share : PFloat
  customer_value : ℚ
deriving DecidableEq, Repr

/-- The per-segment records of analyze_customer_segments.  revenue_share
is (total_revenue / grand_total * 100).round(2), computed here as the
equal (totr * 100) / grand_total; when the grand total is zero pandas
float division produces an infinity or NaN, captured by pdiv. -/
def segmentRecordsOf (t : Table) : List SegmentRecord :=
  let total := gsum t (fun r => r.revenue)
  (groupKeys strLe t (fun r => r.customer_segment)).map (fun k =>
    let g := groupRows t (fun r => r.customer_segment) k
    let totr := roundQ 2 (gsum g (fun r => r.revenue))
    { customer_segment := k
      total_revenue := totr
      avg_revenue_per_transaction := roundQ 2 (meanQ (g.map (fun r => r.revenue)))
      transaction_count := g.length
      total_qty := roundQ 2 (gsum g (fun r => r.qty))
      avg_qty_per_transaction := roundQ 2 (meanQ (g.map (fun r => r.qty)))
      avg_price_per_item := (pmean (g.map (fun r => r.avg_price))).round2
      revenue_share := (pdiv (totr * 100) total).round2
      customer_value := totr / (g.length : ℚ) })

/-- The groupby(customer_segment).avg_price.describe() block. -/
noncomputable def describeOf (t : Table) : List (String × DescribeRow) :=
  (groupKeys strLe t (fun r => r.customer_segment)).map (fun k =>
    (k, describeCol ((groupRows t (fun r => r.customer_segment) k).map
      (fun r => r.avg_price))))

/-- The record set returned by analyze_customer_segments on loaded
data. -/
structure SegmentResult where
  segment_performance : List SegmentRecord
  segment_comparison : List (String × DescribeRow)

/-- DataProcessor.analyze_customer_segments: the empty dict when no table
is loaded, otherwise the segment records and the describe block. -/
noncomputable def analyzeCustomerSegments (df : Option Table) : Option SegmentResult :=
  df.map (fun t => ⟨segmentRecordsOf t, describeOf t⟩)

/-- One record of the store_performance table. -/
structure StoreRecord where
  store : String
  total_revenue : ℚ
  avg_revenue_per_transaction : ℚ
  transaction_count : ℕ
  total_qty_sold : ℚ
  avg_qty_per_transaction : ℚ
  menu_variety : ℕ
  revenue_per_day : ℚ
  efficiency_score : ℚ
deriving DecidableEq, Repr

/-- The per-store records of analyze_store_performance.  revenue_per_day
divides by the distinct-date count of the whole table, which is at least
one whenever a store group exists. -/
def storeRecordsOf (t : Table) : List StoreRecord :=
  let dateCount := (uniqueFirst (t.map (fun r => r.date))).length
  (groupKeys strLe t (fun r => r.store)).map (fun k =>
    let g := groupRows t (fun r => r.store) k
    let totr := roundQ 2 (gsum g (fun r => r.revenue))
    { store := k
      total_revenue := totr
      avg_revenue_per_transaction := roundQ 2 (meanQ (g.map (fun r => r.revenue)))
      transaction_count := g.length
      total_qty_sold := roundQ 2 (gsum g (fun r => r.qty))
      avg_qty_per_transaction := roundQ 2 (meanQ (g.map (fun r => r.qty)))
      menu_variety := (uniqueFirst (g.filterMap (fun r => r.menu_item))).length
      revenue_per_day := totr / (dateCount : ℚ)
      efficiency_score := roundQ 2 (totr / (g.length : ℚ)) })

/-- The top-5 menu items by quantity within one store slice. -/
def popularIn (g : Table) : List (String × ℚ) :=
  nlargestBy 5 (fun p => p.2)
    ((groupKeys strLe g (fun r => r.menu_item)).map (fun k =>
      (k, gsum (groupRows g (fun r => r.menu_item) k) (fun r => r.qty))))

/-- The store_popular_items block: iterates over unique() store values in
appearance order (a missing store value compares unequal to every row, so
its slice is empty, mirroring NaN == NaN being false). -/
def storePopularItems (t : Table) : List (Option String × List (String × ℚ)) :=
  (uniqueFirst (t.map (fun r => r.store))).map (fun s =>
    let g := if s = none then [] else t.filter (fun r => decide (r.store = s))
    (s, popularIn g))

/-- The record set returned by analyze_store_performance on loaded
data. -/
structure StoreResult where
  store_performance : List StoreRecord
  store_popular_items : List (Option String × List (String × ℚ))
deriving DecidableEq, Repr

/-- DataProcessor.analyze_store_performance: the empty dict when no table
is loaded. -/
def analyzeStorePerformance (df : Option Table) : Option StoreResult :=
  df.map (fun t => ⟨storeRecordsOf t, storePopularItems t⟩)

/-- The three numerical columns correlated by get_correlation_analysis. -/
inductive NumCol where
  | revenue
  | qty
  | avg_price
deriving DecidableEq, Repr

/-- Column extraction for the correlation matrix.  The avg_price column
is taken through toRat; the correlation claims hypothesise an all-finite
avg_price column, the only case in which pandas corr yields finite
entries. -/
def colVals (t : Table) : NumCol → List ℚ
  | .revenue => t.map (fun r => r.revenue)
  | .qty => t.map (fun r => r.qty)
  | .avg_price => t.map (fun r => r.avg_price.toRat)

/-- Unnormalised covariance sum about the means, the kernel of the
Pearson formula. -/
def scovQ (xs ys : List ℚ) : ℚ :=
  ((xs.zip ys).map (fun p => (p.1 - meanQ xs) * (p.2 - meanQ ys))).sum

/-- Round-half-to-even on a real value. -/
noncomputable def rheR (x : ℝ) : ℤ :=
  if x - ⌊x⌋ < 1 / 2 then ⌊x⌋
  else if 1 / 2 < x - ⌊x⌋ then ⌊x⌋ + 1
  else if ⌊x⌋ % 2 = 0 then ⌊x⌋ else ⌊x⌋ + 1

/-- Pandas round(3) on a real value. -/
noncomputable def round3R (x : ℝ) : ℝ := (rheR (x * 1000) : ℝ) / 1000

/-- Pandas round(3) on a statistic cell. -/
noncomputable def RFloat.round3 : RFloat → RFloat
  | .val x => .val (round3R x)
  | .nan => .nan

/-- One Pearson correlation entry: NaN when either column is degenerate
(zero variance, including the empty table), else the usual quotient. -/
noncomputable def corrEntryR (xs ys : List ℚ) : RFloat :=
  if scovQ xs xs = 0 ∨ scovQ ys ys = 0 then .nan
  else .val (((scovQ xs ys : ℚ) : ℝ) /
    (Real.sqrt ((scovQ xs xs : ℚ) : ℝ) * Real.sqrt ((scovQ ys ys : ℚ) : ℝ)))

/-- The structure returned by get_correlation_analysis on loaded data:
the rounded matrix and the three named insight entries read off it. -/
structure CorrResult where
  matrix : NumCol → NumCol → RFloat
  price_qty_correlation : RFloat
  price_revenue_correlation : RFloat
  qty_revenue_correlation : RFloat

/-- DataProcessor.get_correlation_analysis: the empty dict when no table
is loaded, otherwise the rounded 3 x 3 Pearson matrix over revenue, qty
and avg_price. -/
noncomputable def getCorrelationAnalysis (df : Option Table) : Option CorrResult :=
  df.map (fun t =>
    let M := fun a b => (corrEntryR (colVals t a) (colVals t b)).round3
    ⟨M, M .avg_price .qty, M .avg_price .revenue, M .qty .revenue⟩)

/-- Regular-expression match anchored at the head of the text, for the
pattern fragment the searches exercise: literal characters plus the dot
wildcard (pandas str.contains interprets its argument as a regex; the dot
matches any character except a newline).  Patterns that use other regex
metacharacters are outside the modelled fragment, and every theorem below
restricts to metacharacter-free queries. -/
def matchHere : List Char → List Char → Bool
  | [], _ => true
  | _ :: _, [] => false
  | p :: ps, c :: cs =>
    (if p = '.' then decide (c ≠ '\n') else decide (p = c)) && matchHere ps cs

/-- re.search over the modelled fragment: a match at some offset. -/
def reSearch (pat : List Char) : List Char → Bool
  | [] => matchHere pat []
  | c :: cs => matchHere pat (c :: cs) || reSearch pat cs

/-- Literal (substring) match anchored at the head of the text. -/
def litHere : List Char → List Char → Bool
  | [], _ => true
  | _ :: _, [] => false
  | p :: ps, c :: cs => decide (p = c) && litHere ps cs

/-- Plain substring occurrence, the reading of contains used by the
specification. -/
def isSub (pat : List Char) : List Char → Bool
  | [] => litHere pat []
  | c :: cs => litHere pat (c :: cs) || isSub pat cs

/-- ASCII lowercasing, as Python str.lower on the ASCII labels in
scope. -/
def lowerStr (s : String) : String := ⟨s.data.map Char.toLower⟩

/-- One field test of search_data: a missing cell never matches
(str.contains na = False); a present cell is lowercased and searched with
the lowercased query. -/
def optMatch (cell : Option String) (pat : String) : Bool :=
  match cell with
  | none => false
  | some s => reSearch pat.data (lowerStr s).data

/-- DataProcessor.search_data: empty on the absent table; otherwise the
rows whose menu_item, store or customer_segment matches the lowercased
query. -/
def searchData (df : Option Table) (query : String) : Table :=
  match df with
  | none => []
  | some t =>
    let q := lowerStr query
    t.filter (fun r =>
      optMatch r.menu_item q || optMatch r.store q || optMatch r.customer_segment q)

/-- The data_summary snapshot built by _generate_summary.  The date span
is held as parsed dates (the source formats them with strftime).  The
stores and customer_segments lists come from unique(), which keeps
missing values, hence the Option entries. -/
structure Summary where
  total_records : ℕ
  date_start : Date
  date_end : Date
  total_revenue : ℚ
  total_qty_sold : ℚ
  avg_transaction_value : ℚ
  stores : List (Option String)
  customer_segments : List (Option String)
  unique_menu_items : ℕ
  top_selling_items : List (String × ℚ)
  revenue_by_store : List (String × ℚ)
  revenue_by_segment : List (String × ℚ)
deriving DecidableEq, Repr

/-- The summary computed over a non-empty processed table. -/
def mkSummary (t : Table) : Summary :=
  let dates := List.insertionSort Date.le (t.map (fun r => r.date))
  { total_records := t.length
    date_start := dates.getD 0 ⟨1970, 1, 1⟩
    date_end := dates.getLast?.getD ⟨1970, 1, 1⟩
    total_revenue := gsum t (fun r => r.revenue)
    total_qty_sold := gsum t (fun r => r.qty)
    avg_transaction_value := meanQ (t.map (fun r => r.revenue))
    stores := uniqueFirst (t.map (fun r => r.store))
    customer_segments := uniqueFirst (t.map (fun r => r.customer_segment))
    unique_menu_items := (uniqueFirst (t.filterMap (fun r => r.menu_item))).length
    top_selling_items := nlargestBy 5 (fun p => p.2)
      ((groupKeys strLe t (fun r => r.menu_item)).map (fun k =>
        (k, gsum (groupRows t (fun r => r.menu_item) k) (fun r => r.qty))))
    revenue_by_store := (groupKeys strLe t (fun r => r.store)).map (fun k =>
      (k, gsum (groupRows t (fun r => r.store) k) (fun r => r.revenue)))
    revenue_by_segment := (groupKeys strLe t (fun r => r.customer_segment)).map (fun k =>
      (k, gsum (groupRows t (fun r => r.customer_segment) k) (fun r => r.revenue))) }

/-- The value of self.df at each stage of the load pipeline.  load_dataset
assigns the raw frame before cleaning, and each cleaning statement adds
columns in place, so a failure partway leaves the frame at the stage
reached.  The column values at each stage are determined by the raw data,
so the stage tag plus the raw table captures the frame contents. -/
inductive StoredTable where
  | rawStage (raw : RawTable)
  | datedStage (raw : RawTable)
  | outlierStage (raw : RawTable)
  | cleanStage (raw : RawTable)
deriving DecidableEq, Repr

/-- The mutable state of a DataProcessor: self.df and self.data_summary
(None and the empty dict at construction). -/
structure DataProcessor where
  df : Option StoredTable
  data_summary : Option Summary
deriving DecidableEq, Repr

/-- The exceptions the load pipeline can raise: a missing column
(KeyError), an unparseable date (to_datetime failure), and strftime on
NaT when the frame has no rows. -/
inductive LoadErr where
  | keyError (col : String)
  | parseError
  | emptyDateRange
deriving DecidableEq, Repr

/-- DataProcessor.load_dataset: assigns self.df from the raw input, then
runs _clean_data and _generate_summary; any exception is printed and
re-raised, with self.df left at the stage reached (self.data_summary is
only assigned once the whole summary dict has been built, so it never
changes on a failure). -/
def loadDataset (st : DataProcessor) (raw : RawTable) :
    Except LoadErr Unit × DataProcessor :=
  let st1 : DataProcessor := { st with df := some (.rawStage raw) }
  if ¬ raw.hasDate = true then (.error (.keyError "date"), st1)
  else if raw.rows.any (fun r => r.date.isNone) then (.error .parseError, st1)
  else
    let st2 : DataProcessor := { st with df := some (.datedStage raw) }
    if ¬ raw.hasRevenue = true then (.error (.keyError "revenue"), st2)
    else
      let st3 : DataProcessor := { st with df := some (.outlierStage raw) }
      if ¬ raw.hasQty = true then (.error (.keyError "qty"), st3)
      else
        let st4 : DataProcessor := { st with df := some (.cleanStage raw) }
        if raw.rows.isEmpty then (.error .emptyDateRange, st4)
        else if ¬ raw.hasStore = true then (.error (.keyError "store"), st4)
        else if ¬ raw.hasSegment = true then (.error (.keyError "customer_segment"), st4)
        else if ¬ raw.hasMenuItem = true then (.error (.keyError "menu_item"), st4)
        else
          (.ok (), { df := some (.cleanStage raw)
                     data_summary := some (mkSummary (cleanRows raw)) })

/-- A call to one of the read-only aggregation methods, in state-passing
form: the method reads self.df, computes its result and performs no
assignment, so the state is returned unchanged. -/
def callAgg {ρ : Type} (f : Option Table → ρ) (df : Option Table) : ρ × Option Table :=
  (f df, df)

/-- A rational exact at two decimal places; pandas round(2) is the
identity exactly on these. -/
def TwoDec (q : ℚ) : Prop := (q * 100).den = 1

instance : DecidablePred TwoDec := fun q =>
  inferInstanceAs (Decidable ((q * 100).den = 1))

/-- A processed row as produced from a fully populated raw row; used to
build concrete test tables. -/
def mkRow (dt : Date) (st it : String) (rev q : ℚ) (seg : String) : Row :=
  { date := dt
    store := some st
    menu_item := some it
    revenue := rev
    qty := q
    customer_segment := some seg
    is_outlier := false
    avg_price := pdiv rev q
    month := dt.m
    day_of_week := dayName dt
    week := isoWeek dt }

/-- Raw table with a qty = 0 row, for the division-by-zero scenario. -/
def rawC1 : RawTable :=
  { hasDate := true, hasStore := true, hasMenuItem := true
    hasRevenue := true, hasQty := true, hasSegment := true
    rows := [
      { date := some ⟨2024, 1, 15⟩, store := some "Store A"
        menu_item := some "Nasi Goreng", revenue := 85000, qty := 0
        customer_segment := some "Regular" },
      { date := some ⟨2024, 1, 15⟩, store := some "Store A"
        menu_item := some "Nasi Goreng", revenue := 100, qty := 4
        customer_segment := some "Regular" }] }

/-- The three-row scenario table of the specification. -/
def scenarioRaw : RawTable :=
  { hasDate := true, hasStore := true, hasMenuItem := true
    hasRevenue := true, hasQty := true, hasSegment := true
    rows := [
      { date := some ⟨2024, 1, 15⟩, store := some "Store A"
        menu_item := some "Nasi Goreng", revenue := 85000, qty := 5
        customer_segment := some "Regular" },
      { date := some ⟨2024, 1, 15⟩, store := some "Store B"
        menu_item := some "Ayam Bakar", revenue := 78000, qty := 4
        customer_segment := some "Premium" },
      { date := some ⟨2024, 1, 16⟩, store := some "Store A"
        menu_item := some "Es Teh", revenue := 15000, qty := 10
        customer_segment := some "Budget" }] }

/-- The scenario table after cleaning. -/
def scenarioTable : Table := cleanRows scenarioRaw

/-- A well-formed one-row raw table, for the load-pipeline tests. -/
def rawOk : RawTable :=
  { hasDate := true, hasStore := true, hasMenuItem := true
    hasRevenue := true, hasQty := true, hasSegment := true
    rows := [
      { date := some ⟨2024, 2, 1⟩, store := some "Store A"
        menu_item := some "Es Teh", revenue := 5000, qty := 2
        customer_segment := some "Budget" }] }

/-- A raw table whose menu_item column is absent; the date column parses,
so the clean step completes and only the summary step fails. -/
def rawNoMenu : RawTable :=
  { hasDate := true, hasStore := true, hasMenuItem := false
    hasRevenue := true, hasQty := true, hasSegment := true
    rows := [
      { date := some ⟨2024, 3, 1⟩, store := some "Store B"
        menu_item := none, revenue := 7000, qty := 1
        customer_segment := some "Regular" }] }

/-- Two one-row menu groups with revenue 1/1000 each: the per-group
round(2) collapses both totals to zero while the column total is 1/500. -/
def tRound : Table :=
  [mkRow ⟨2024, 1, 15⟩ "Store A" "Item A" (1 / 1000) 1 "Regular",
   mkRow ⟨2024, 1, 15⟩ "Store A" "Item B" (1 / 1000) 1 "Regular"]

/-- Two-decimal-exact table for the partition witness. -/
def tPart : Table :=
  [mkRow ⟨2024, 1, 15⟩ "Store A" "Item A" 10 1 "Regular",
   mkRow ⟨2024, 1, 15⟩ "Store A" "Item B" 20 1 "Regular"]

/-- Two-segment table with grand total 400, for the revenue-share
witness. -/
def tShare : Table :=
  [mkRow ⟨2024, 1, 15⟩ "Store A" "Nasi Goreng" 100 1 "SegA",
   mkRow ⟨2024, 1, 15⟩ "Store A" "Ayam Bakar" 300 1 "SegB"]

/-- Three-row table with non-degenerate revenue, qty and avg_price
columns, for the correlation witness. -/
def tCorr : Table :=
  [mkRow ⟨2024, 1, 15⟩ "Store A" "Item A" 1 1 "Regular",
   mkRow ⟨2024, 1, 15⟩ "Store A" "Item B" 2 1 "Regular",
   mkRow ⟨2024, 1, 16⟩ "Store A" "Item C" 3 2 "Regular"]

/-- One row whose only label is the menu item abc, for the regex-dot
counterexample. -/
def tDot : Table :=
  [mkRow ⟨2024, 1, 15⟩ "Store A" "abc" 1 1 "Regular"]

/-- A row with every searchable label missing, as read from a CSV with
three empty cells. -/
def rowNoLabels : Row :=
  { date := ⟨2024, 1, 15⟩
    store := none
    menu_item := none
    revenue := 1
    qty := 1
    customer_segment := none
    is_outlier := false
    avg_price := PFloat.val 1
    month := 1
    day_of_week := "Monday"
    week := 3 }

/-- The specification-side reading of contains: the pattern occurs in the
lowercased cell as a plain substring; a missing cell contains nothing. -/
def cellHasSub (cell : Option String) (pat : String) : Bool :=
  match cell with
  | none => false
  | some s => isSub pat.data (lowerStr s).data

/-- The regular-expression metacharacters of the Python re syntax; the
search theorems restrict to queries free of them, where str.contains
coincides with substring search. -/
def metaChars : List Char :=
  ['.', '^', '$', '*', '+', '?', '\x7b', '\x7d', '[', ']', '\\', '|', '(', ')']

/-- A processor that has already loaded the one-row table, for the
failed-reload counterexample. -/
def stLoaded : DataProcessor :=
  ⟨some (.cleanStage rawOk), some (mkSummary (cleanRows rawOk))⟩

/-- One fully labelled row, for the search witnesses. -/
def tMatch : Table :=
  [mkRow ⟨2024, 1, 15⟩ "Store A" "Nasi Goreng" 85000 5 "Regular"]

theorem mem_uniqueAux {α : Type} [DecidableEq α] (l : List α) (seen : List α) (a : α) :
    a ∈ uniqueAux seen l ↔ a ∈ l ∧ a ∉ seen := by
  induction l generalizing seen with
  | nil => simp [uniqueAux]
  | cons x xs ih =>
    by_cases hx : x ∈ seen
    · rw [uniqueAux, if_pos hx, ih, List.mem_cons]
      constructor
      · rintro ⟨h1, h2⟩
        exact ⟨Or.inr h1, h2⟩
      · rintro ⟨h1 | h1, h2⟩
        · exact absurd (h1.symm ▸ hx : a ∈ seen) h2
        · exact ⟨h1, h2⟩
    · rw [uniqueAux, if_neg hx, List.mem_cons, ih, List.mem_cons, List.mem_cons]
      constructor
      · rintro (rfl | ⟨h1, h2⟩)
        · exact ⟨Or.inl rfl, hx⟩
        · exact ⟨Or.inr h1, fun hs => h2 (Or.inr hs)⟩
      · rintro ⟨h1 | h1, h2⟩
        · exact Or.inl h1
        · by_cases hax : a = x
          · exact Or.inl hax
          · exact Or.inr ⟨h1, fun hs => hs.elim hax h2⟩

theorem nodup_uniqueAux {α : Type} [DecidableEq α] (l : List α) (seen : List α) :
    (uniqueAux seen l).Nodup := by
  induction l generalizing seen with
  | nil => exact List.nodup_nil
  | cons x xs ih =>
    by_cases hx : x ∈ seen
    · rw [uniqueAux, if_pos hx]
      exact ih seen
    · rw [uniqueAux, if_neg hx]
      refine List.nodup_cons.mpr ⟨?_, ih (x :: seen)⟩
      intro hmem
      exact ((mem_uniqueAux xs (x :: seen) x).mp hmem).2 (List.mem_cons_self x seen)

theorem mem_uniqueFirst {α : Type} [DecidableEq α] (l : List α) (a : α) :
    a ∈ uniqueFirst l ↔ a ∈ l := by
  rw [uniqueFirst, mem_uniqueAux]
  simp

theorem nodup_uniqueFirst {α : Type} [DecidableEq α] (l : List α) :
    (uniqueFirst l).Nodup :=
  nodup_uniqueAux l []

theorem nodup_groupKeys {α κ : Type} [DecidableEq κ] (r : κ → κ → Prop) [DecidableRel r]
    (t : List α) (f : α → Option κ) : (groupKeys r t f).Nodup :=
  ((List.perm_insertionSort r _).nodup_iff).mpr (nodup_uniqueFirst _)

theorem mem_groupKeys {α κ : Type} [DecidableEq κ] (r : κ → κ → Prop) [DecidableRel r]
    (t : List α) (f : α → Option κ) (k : κ) :
    k ∈ groupKeys r t f ↔ ∃ x ∈ t, f x = some k := by
  rw [groupKeys, (List.perm_insertionSort r _).mem_iff, mem_uniqueFirst,
    List.mem_filterMap]

theorem sum_map_add_q {κ : Type} (l : List κ) (F G : κ → ℚ) :
    (l.map (fun k => F k + G k)).sum = (l.map F).sum + (l.map G).sum := by
  induction l with
  | nil => simp
  | cons k l ih =>
    simp only [List.map_cons, List.sum_cons, ih]
    ring

theorem sum_ite_eq_of_mem {κ : Type} [DecidableEq κ] (ks : List κ) (k₀ : κ) (c : ℚ)
    (hnd : ks.Nodup) (hk : k₀ ∈ ks) :
    (ks.map (fun k => if k₀ = k then c else 0)).sum = c := by
  induction ks with
  | nil => cases hk
  | cons k ks ih =>
    rw [List.map_cons, List.sum_cons]
    rcases List.mem_cons.mp hk with h | h
    · subst h
      rw [if_pos rfl]
      have h0 : (ks.map (fun k => if k₀ = k then c else 0)).sum = 0 := by
        apply List.sum_eq_zero
        intro x hx
        rcases List.mem_map.mp hx with ⟨k', hk', rfl⟩
        rw [if_neg]
        intro he
        exact (List.nodup_cons.mp hnd).1 (he ▸ hk')
      rw [h0, add_zero]
    · have hne : k₀ ≠ k := by
        intro he
        subst he
        exact (List.nodup_cons.mp hnd).1 h
      rw [if_neg hne, zero_add]
      exact ih (List.nodup_cons.mp hnd).2 h

theorem gsum_nil {α : Type} (g : α → ℚ) : gsum ([] : List α) g = 0 := rfl

theorem gsum_cons {α : Type} (x : α) (l : List α) (g : α → ℚ) :
    gsum (x :: l) g = g x + gsum l g := by
  simp [gsum]

theorem groupRows_nil {α κ : Type} [DecidableEq κ] (f : α → Option κ) (k : κ) :
    groupRows ([] : List α) f k = [] := rfl

theorem groupRows_cons {α κ : Type} [DecidableEq κ] (x : α) (xs : List α)
    (f : α → Option κ) (k : κ) :
    groupRows (x :: xs) f k =
      if f x = some k then x :: groupRows xs f k else groupRows xs f k := by
  rw [groupRows, List.filter_cons]
  by_cases h : f x = some k
  · rw [if_pos (by simpa using h), if_pos h]
    rfl
  · rw [if_neg (by simpa using h), if_neg h]
    rfl

theorem sum_groupRows {α κ : Type} [DecidableEq κ] (t : List α) (f : α → Option κ)
    (g : α → ℚ) (ks : List κ) (hnd : ks.Nodup)
    (hcov : ∀ x ∈ t, ∃ k ∈ ks, f x = some k) :
    (ks.map (fun k => gsum (groupRows t f k) g)).sum = gsum t g := by
  induction t with
  | nil =>
    rw [gsum_nil]
    apply List.sum_eq_zero
    intro x hx
    rcases List.mem_map.mp hx with ⟨k, _, rfl⟩
    rw [groupRows_nil, gsum_nil]
  | cons x xs ih =>
    obtain ⟨k₀, hk₀, hfx⟩ := hcov x (List.mem_cons_self x xs)
    have hstep : ∀ k ∈ ks, gsum (groupRows (x :: xs) f k) g
        = (if k₀ = k then g x else 0) + gsum (groupRows xs f k) g := by
      intro k _
      rw [groupRows_cons]
      by_cases h : f x = some k
      · have hk : k₀ = k := by
          rw [hfx] at h
          exact Option.some.inj h
        rw [if_pos h, if_pos hk, gsum_cons]
      · have hk : k₀ ≠ k := by
          intro he
          exact h (he ▸ hfx)
        rw [if_neg h, if_neg hk, zero_add]
    rw [List.map_congr_left hstep, sum_map_add_q,
      sum_ite_eq_of_mem ks k₀ (g x) hnd hk₀,
      ih (fun y hy => hcov y (List.mem_cons_of_mem x hy)), gsum_cons]

theorem rhe_intCast (z : ℤ) : rhe (z : ℚ) = z := by
  unfold rhe
  rw [Int.floor_intCast]
  norm_num

theorem abs_rhe_sub (q : ℚ) : |(rhe q : ℚ) - q| ≤ 1 / 2 := by
  unfold rhe
  have h0 : (⌊q⌋ : ℚ) ≤ q := Int.floor_le q
  have h1 : q < ⌊q⌋ + 1 := Int.lt_floor_add_one q
  split_ifs with ha hb hc
  all_goals rw [abs_le]; constructor <;> push_cast at * <;> linarith

theorem abs_roundQ2_sub (q : ℚ) : |roundQ 2 q - q| ≤ 1 / 200 := by
  unfold roundQ
  have h := abs_rhe_sub (q * 10 ^ 2)
  have key : (rhe (q * 10 ^ 2) : ℚ) / 10 ^ 2 - q
      = ((rhe (q * 10 ^ 2) : ℚ) - q * 10 ^ 2) / 10 ^ 2 := by
    ring
  rw [key, abs_div, abs_of_pos (by norm_num : (0:ℚ) < 10 ^ 2)]
  rw [div_le_iff₀ (by norm_num : (0:ℚ) < 10 ^ 2)]
  calc |(rhe (q * 10 ^ 2) : ℚ) - q * 10 ^ 2| ≤ 1 / 2 := h
    _ = 1 / 200 * 10 ^ 2 := by norm_num

theorem roundQ2_of_twoDec (q : ℚ) (h : TwoDec q) : roundQ 2 q = q := by
  have h2 : ((q * 100).num : ℚ) = q * 100 := (Rat.den_eq_one_iff _).mp h
  unfold roundQ
  have h100 : (10 : ℚ) ^ 2 = 100 := by norm_num
  rw [h100, ← h2, rhe_intCast, h2]
  field_simp

theorem twoDec_add {a b : ℚ} (ha : TwoDec a) (hb : TwoDec b) : TwoDec (a + b) := by
  have ha2 : ((a * 100).num : ℚ) = a * 100 := (Rat.den_eq_one_iff _).mp ha
  have hb2 : ((b * 100).num : ℚ) = b * 100 := (Rat.den_eq_one_iff _).mp hb
  have key : (a + b) * 100 = (((a * 100).num + (b * 100).num : ℤ) : ℚ) := by
    push_cast
    rw [ha2, hb2]
    ring
  unfold TwoDec
  rw [key]
  exact Rat.den_intCast _

theorem twoDec_gsum {α : Type} (l : List α) (g : α → ℚ)
    (h : ∀ x ∈ l, TwoDec (g x)) : TwoDec (gsum l g) := by
  induction l with
  | nil =>
    rw [gsum_nil]
    unfold TwoDec
    norm_num
  | cons x xs ih =>
    rw [gsum_cons]
    exact twoDec_add (h x (List.mem_cons_self x xs))
      (ih (fun y hy => h y (List.mem_cons_of_mem x hy)))

theorem abs_sum_sub_sum_le {κ : Type} (l : List κ) (F G : κ → ℚ) (c : ℚ)
    (h : ∀ k ∈ l, |F k - G k| ≤ c) :
    |(l.map F).sum - (l.map G).sum| ≤ l.length * c := by
  induction l with
  | nil => simp
  | cons k l ih =>
    simp only [List.map_cons, List.sum_cons, List.length_cons]
    have h1 := h k (List.mem_cons_self k l)
    have h2 := ih (fun k' hk' => h k' (List.mem_cons_of_mem k hk'))
    have key : F k + (l.map F).sum - (G k + (l.map G).sum)
        = (F k - G k) + ((l.map F).sum - (l.map G).sum) := by
      ring
    rw [key]
    calc |(F k - G k) + ((l.map F).sum - (l.map G).sum)|
        ≤ |F k - G k| + |(l.map F).sum - (l.map G).sum| := abs_add _ _
      _ ≤ c + l.length * c := add_le_add h1 h2
      _ = (l.length + 1 : ℕ) * c := by push_cast; ring

theorem matchHere_eq_litHere (pat : List Char) (h : '.' ∉ pat) (s : List Char) :
    matchHere pat s = litHere pat s := by
  induction pat generalizing s with
  | nil => cases s <;> rfl
  | cons p ps ih =>
    cases s with
    | nil => rfl
    | cons c cs =>
      have hp : ¬ p = '.' := fun he => h (he ▸ List.mem_cons_self p ps)
      rw [matchHere, litHere, if_neg hp,
        ih (fun hm => h (List.mem_cons_of_mem p hm)) cs]

theorem reSearch_eq_isSub (pat : List Char) (h : '.' ∉ pat) (s : List Char) :
    reSearch pat s = isSub pat s := by
  induction s with
  | nil =>
    rw [reSearch, isSub, matchHere_eq_litHere pat h]
  | cons c cs ih =>
    rw [reSearch, isSub, matchHere_eq_litHere pat h, ih]

theorem reSearch_nil_pat (s : List Char) : reSearch [] s = true := by
  cases s <;> simp [reSearch, matchHere]

theorem scovQ_comm_aux (l : List (ℚ × ℚ)) (a b : ℚ) :
    ((l.map (fun p => (p.1 - a) * (p.2 - b))).sum)
      = ((l.map (fun p => (p.2 - b) * (p.1 - a))).sum) := by
  induction l with
  | nil => rfl
  | cons x xs ih =>
    simp only [List.map_cons, List.sum_cons, ih]
    ring_nf

theorem zip_swap_map (xs ys : List ℚ) (F : ℚ × ℚ → ℚ) :
    ((ys.zip xs).map F).sum = ((xs.zip ys).map (fun p => F (p.2, p.1))).sum := by
  induction xs generalizing ys with
  | nil => cases ys <;> rfl
  | cons x xs ih =>
    cases ys with
    | nil => rfl
    | cons y ys =>
      simp only [List.zip_cons_cons, List.map_cons, List.sum_cons, ih]

theorem scovQ_comm (xs ys : List ℚ) : scovQ xs ys = scovQ ys xs := by
  unfold scovQ
  rw [zip_swap_map]
  exact (scovQ_comm_aux _ _ _).symm

theorem scovQ_self_eq_sq (xs : List ℚ) :
    scovQ xs xs = ((xs.map (fun x => (x - meanQ xs) ^ 2)).sum) := by
  unfold scovQ
  have : ∀ (l : List ℚ) (a : ℚ),
      ((l.zip l).map (fun p => (p.1 - a) * (p.2 - a))).sum
        = (l.map (fun x => (x - a) ^ 2)).sum := by
    intro l a
    induction l with
    | nil => rfl
    | cons x l ih =>
      simp only [List.zip_cons_cons, List.map_cons, List.sum_cons, ih]
      ring_nf
  exact this xs (meanQ xs)

theorem scovQ_self_nonneg (xs : List ℚ) : 0 ≤ scovQ xs xs := by
  rw [scovQ_self_eq_sq]
  apply List.sum_nonneg
  intro x hx
  rcases List.mem_map.mp hx with ⟨y, _, rfl⟩
  positivity

theorem rheR_intCast (z : ℤ) : rheR (z : ℝ) = z := by
  unfold rheR
  rw [Int.floor_intCast]
  norm_num

theorem round3R_one : round3R 1 = 1 := by
  unfold round3R
  have h : (1 : ℝ) * 1000 = ((1000 : ℤ) : ℝ) := by norm_num
  rw [h, rheR_intCast]
  norm_num

theorem corrEntryR_comm (xs ys : List ℚ) : corrEntryR xs ys = corrEntryR ys xs := by
  unfold corrEntryR
  rw [scovQ_comm xs ys]
  by_cases h : scovQ xs xs = 0 ∨ scovQ ys ys = 0
  · rw [if_pos h, if_pos (Or.symm h)]
  · rw [if_neg h, if_neg (fun hc => h (Or.symm hc))]
    rw [mul_comm]

theorem corrEntryR_self (xs : List ℚ) (h : scovQ xs xs ≠ 0) :
    corrEntryR xs xs = RFloat.val 1 := by
  unfold corrEntryR
  rw [if_neg (by simpa using h)]
  have hpos : (0 : ℝ) ≤ ((scovQ xs xs : ℚ) : ℝ) := by
    exact_mod_cast scovQ_self_nonneg xs
  rw [Real.mul_self_sqrt hpos]
  have hne : ((scovQ xs xs : ℚ) : ℝ) ≠ 0 := by
    exact_mod_cast h
  rw [div_self hne]

/-- C9: each of the six aggregation operations reads the stored table
and performs no assignment, so calling it twice in succession on the same
NormalizedTable yields identical results and leaves the table unchanged. -/
theorem c9_no_mutation (df : Option Table) (q : String) :
    ((callAgg getSalesTrends df).2 = df ∧
      (callAgg getSalesTrends ((callAgg getSalesTrends df).2)).1
        = (callAgg getSalesTrends df).1) ∧
    ((callAgg analyzeMenuPerformance df).2 = df ∧
      (callAgg analyzeMenuPerformance ((callAgg analyzeMenuPerformance df).2)).1
        = (callAgg analyzeMenuPerformance df).1) ∧
    ((callAgg analyzeCustomerSegments df).2 = df ∧
      (callAgg analyzeCustomerSegments ((callAgg analyzeCustomerSegments df).2)).1
        = (callAgg analyzeCustomerSegments df).1) ∧
    ((callAgg analyzeStorePerformance df).2 = df ∧
      (callAgg analyzeStorePerformance ((callAgg analyzeStorePerformance df).2)).1
        = (callAgg analyzeStorePerformance df).1) ∧
    ((callAgg getCorrelationAnalysis df).2 = df ∧
      (callAgg getCorrelationAnalysis ((callAgg getCorrelationAnalysis df).2)).1
        = (callAgg getCorrelationAnalysis df).1) ∧
    ((callAgg (fun d => searchData d q) df).2 = df ∧
      (callAgg (fun d => searchData d q) ((callAgg (fun d => searchData d q) df).2)).1
        = (callAgg (fun d => searchData d q) df).1) :=
  ⟨⟨rfl, rfl⟩, ⟨rfl, rfl⟩, ⟨rfl, rfl⟩, ⟨rfl, rfl⟩, ⟨rfl, rfl⟩, ⟨rfl, rfl⟩⟩

/-- C10: a row whose menu_item, store and customer_segment cells are all
missing is never returned by search_data: str.contains with na = False
treats a missing cell as a non-match, for every query including the empty
one. -/
theorem c10_missing_labels_never_match (df : Option Table) (q : String) (r : Row)
    (h1 : r.menu_item = none) (h2 : r.store = none)
    (h3 : r.customer_segment = none) :
    r ∉ searchData df q := by
  cases df with
  | none => simp [searchData]
  | some t =>
    intro hmem
    simp only [searchData] at hmem
    have hp := (List.mem_filter.mp hmem).2
    rw [h1, h2, h3] at hp
    simp [optMatch] at hp

/-- C10 witness: the all-missing row is not found even by the empty
query on a table that contains it. -/
theorem c10_witness :
    (rowNoLabels.menu_item = none ∧ rowNoLabels.store = none ∧
      rowNoLabels.customer_segment = none) ∧
    rowNoLabels ∉ searchData (some [rowNoLabels]) "" :=
  ⟨⟨rfl, rfl, rfl⟩,
    c10_missing_labels_never_match (some [rowNoLabels]) "" rowNoLabels rfl rfl rfl⟩

/-- C2 (amended): on the absent table every aggregation returns the empty
dict, and on a present empty table trends, menu, segment, store and
search all return structures whose collections are empty; correlation,
however, returns a fully keyed 3 x 3 matrix whose entries are all NaN
rather than an empty structure. -/
theorem c2_empty_behaviour :
    getSalesTrends none = none ∧
    getSalesTrends (some []) = some ⟨[], [], []⟩ ∧
    analyzeMenuPerformance none = none ∧
    analyzeMenuPerformance (some []) = some ⟨[], [], []⟩ ∧
    analyzeCustomerSegments none = none ∧
    analyzeCustomerSegments (some []) = some ⟨[], []⟩ ∧
    analyzeStorePerformance none = none ∧
    analyzeStorePerformance (some []) = some ⟨[], []⟩ ∧
    (∀ q, searchData none q = []) ∧
    (∀ q, searchData (some []) q = []) ∧
    getCorrelationAnalysis none = none ∧
    (∃ c, getCorrelationAnalysis (some []) = some c ∧
      (∀ a b, c.matrix a b = RFloat.nan) ∧
      c.price_qty_correlation = RFloat.nan ∧
      c.price_revenue_correlation = RFloat.nan ∧
      c.qty_revenue_correlation = RFloat.nan) := by
  refine ⟨rfl, rfl, rfl, rfl, rfl, rfl, rfl, rfl, fun q => rfl, fun q => rfl, rfl,
    ⟨_, rfl, ?_, rfl, rfl, rfl⟩⟩
  intro a b
  cases a <;> cases b <;> rfl

/-- C2 counterexample: on a present empty table, get_correlation_analysis
does not return the empty structure that the absent state returns; it
returns a populated matrix of NaN entries. -/
theorem c2_counterexample :
    getCorrelationAnalysis (some ([] : Table)) ≠ none ∧
    ∃ c, getCorrelationAnalysis (some ([] : Table)) = some c ∧
      c.matrix NumCol.revenue NumCol.revenue = RFloat.nan := by
  constructor
  · intro h
    simp [getCorrelationAnalysis] at h
  · exact ⟨_, rfl, rfl⟩

/-- C3 (amended): on a raw input missing a required column or containing
an unparseable date, load_dataset raises, the exception propagates to the
caller (the except block re-raises), and the stored summary is unchanged,
because data_summary is only assigned after the whole summary dict has
been built.  The stored table, however, is not unchanged in general:
self.df is assigned from the raw input before cleaning begins (see the
counterexample). -/
theorem c3_validation_abort (st : DataProcessor) (raw : RawTable)
    (h : ¬ raw.hasDate = true ∨ ¬ raw.hasStore = true ∨ ¬ raw.hasMenuItem = true ∨
      ¬ raw.hasRevenue = true ∨ ¬ raw.hasQty = true ∨ ¬ raw.hasSegment = true ∨
      ∃ r ∈ raw.rows, r.date = none) :
    (∃ e, (loadDataset st raw).1 = Except.error e) ∧
    (loadDataset st raw).2.data_summary = st.data_summary := by
  simp only [loadDataset]
  by_cases hdate : ¬ raw.hasDate = true
  · rw [if_pos hdate]
    exact ⟨⟨_, rfl⟩, rfl⟩
  · rw [if_neg hdate]
    by_cases hparse : raw.rows.any (fun r => r.date.isNone) = true
    · rw [if_pos hparse]
      exact ⟨⟨_, rfl⟩, rfl⟩
    · rw [if_neg hparse]
      by_cases hrev : ¬ raw.hasRevenue = true
      · rw [if_pos hrev]
        exact ⟨⟨_, rfl⟩, rfl⟩
      · rw [if_neg hrev]
        by_cases hqty : ¬ raw.hasQty = true
        · rw [if_pos hqty]
          exact ⟨⟨_, rfl⟩, rfl⟩
        · rw [if_neg hqty]
          by_cases hemp : raw.rows.isEmpty = true
          · rw [if_pos hemp]
            exact ⟨⟨_, rfl⟩, rfl⟩
          · rw [if_neg hemp]
            by_cases hstore : ¬ raw.hasStore = true
            · rw [if_pos hstore]
              exact ⟨⟨_, rfl⟩, rfl⟩
            · rw [if_neg hstore]
              by_cases hseg : ¬ raw.hasSegment = true
              · rw [if_pos hseg]
                exact ⟨⟨_, rfl⟩, rfl⟩
              · rw [if_neg hseg]
                by_cases hmenu : ¬ raw.hasMenuItem = true
                · rw [if_pos hmenu]
                  exact ⟨⟨_, rfl⟩, rfl⟩
                · rw [if_neg hmenu]
                  exfalso
                  rcases h with h | h | h | h | h | h | ⟨r, hr, hd2⟩
                  · exact hdate h
                  · exact hstore h
                  · exact hmenu h
                  · exact hrev h
                  · exact hqty h
                  · exact hseg h
                  · exact hparse (List.any_eq_true.mpr ⟨r, hr, by rw [hd2]; rfl⟩)

/-- C3 witness: loading a table whose menu_item column is absent into a
fresh processor fails with an error and leaves the summary unchanged. -/
theorem c3_witness :
    (¬ rawNoMenu.hasMenuItem = true) ∧
    ((∃ e, (loadDataset ⟨none, none⟩ rawNoMenu).1 = Except.error e) ∧
      (loadDataset ⟨none, none⟩ rawNoMenu).2.data_summary
        = (⟨none, none⟩ : DataProcessor).data_summary) :=
  ⟨by decide,
    c3_validation_abort ⟨none, none⟩ rawNoMenu (Or.inr (Or.inr (Or.inl (by decide))))⟩

/-- C3 counterexample: reloading a defective input over a loaded
processor fails, yet the stored table is replaced by the partially
processed new input — a partial table is produced, against the claim. -/
theorem c3_counterexample :
    (loadDataset stLoaded rawNoMenu).1 = Except.error (LoadErr.keyError "menu_item") ∧
    (loadDataset stLoaded rawNoMenu).2.df ≠ stLoaded.df := by
  constructor
  · rfl
  · decide

/-- Str.contains via the regex engine agrees with plain substring search
whenever the pattern has no dot (and, more broadly, no metacharacter). -/
theorem optMatch_eq_cellHasSub (cell : Option String) (p : String)
    (hp : '.' ∉ p.data) : optMatch cell p = cellHasSub cell p := by
  cases cell with
  | none => rfl
  | some s => simp [optMatch, cellHasSub, reSearch_eq_isSub p.data hp]

/-- C6 (amended): the empty query returns every (fully labelled) row;
a query contained in no label of any row returns the empty result; and
for every query free of regex metacharacters, search_data returns exactly
the rows in which the lowercased query occurs as a substring of the
lowercased menu_item, store or customer_segment.  (The code hands the
query to str.contains as a regular expression, so for metacharacter
queries the substring reading fails — see the counterexample.) -/
theorem c6_search_semantics :
    (∀ t : Table, (∀ r ∈ t, r.menu_item.isSome = true ∧ r.store.isSome = true ∧
        r.customer_segment.isSome = true) →
      searchData (some t) "" = t) ∧
    (∀ t : Table, (∀ r ∈ t, cellHasSub r.menu_item "zzz_no_match" = false ∧
        cellHasSub r.store "zzz_no_match" = false ∧
        cellHasSub r.customer_segment "zzz_no_match" = false) →
      searchData (some t) "zzz_no_match" = []) ∧
    (∀ (t : Table) (q : String), (∀ c ∈ (lowerStr q).data, c ∉ metaChars) →
      searchData (some t) q = t.filter (fun r =>
        cellHasSub r.menu_item (lowerStr q) || cellHasSub r.store (lowerStr q) ||
          cellHasSub r.customer_segment (lowerStr q))) := by
  refine ⟨?_, ?_, ?_⟩
  · intro t h
    simp only [searchData]
    apply List.filter_eq_self.mpr
    intro r hr
    obtain ⟨hm, _, _⟩ := h r hr
    rcases Option.isSome_iff_exists.mp hm with ⟨s, hs⟩
    have hq : (lowerStr "").data = [] := rfl
    simp [optMatch, hs, hq, reSearch_nil_pat]
  · intro t h
    simp only [searchData]
    apply List.filter_eq_nil_iff.mpr
    intro r hr
    obtain ⟨h1, h2, h3⟩ := h r hr
    have hlow : lowerStr "zzz_no_match" = "zzz_no_match" := by decide
    have hdot : '.' ∉ ("zzz_no_match" : String).data := by decide
    rw [hlow]
    simp [optMatch_eq_cellHasSub _ _ hdot, h1, h2, h3]
  · intro t q hq
    simp only [searchData]
    apply List.filter_congr
    intro r _
    have hdot : '.' ∉ (lowerStr q).data := fun hc => hq '.' hc (by decide)
    rw [optMatch_eq_cellHasSub _ _ hdot, optMatch_eq_cellHasSub _ _ hdot,
      optMatch_eq_cellHasSub _ _ hdot]

/-- C6 witness: the empty query returns all rows of a labelled table. -/
theorem c6_witness :
    (∀ r ∈ tMatch, r.menu_item.isSome = true ∧ r.store.isSome = true ∧
      r.customer_segment.isSome = true) ∧
    searchData (some tMatch) "" = tMatch := by
  have h : ∀ r ∈ tMatch, r.menu_item.isSome = true ∧ r.store.isSome = true ∧
      r.customer_segment.isSome = true := by
    intro r hr
    rw [tMatch, List.mem_singleton] at hr
    subst hr
    exact ⟨rfl, rfl, rfl⟩
  exact ⟨h, c6_search_semantics.1 tMatch h⟩

/-- C6 counterexample: the query consisting of a single dot matches the
row whose labels are abc, Store A and Regular, although a dot is a
substring of none of them: str.contains treats the query as a regular
expression, not as a plain substring. -/
theorem c6_counterexample :
    searchData (some tDot) "." = tDot ∧
    cellHasSub (some "abc") (lowerStr ".") = false ∧
    cellHasSub (some "Store A") (lowerStr ".") = false ∧
    cellHasSub (some "Regular") (lowerStr ".") = false := by
  refine ⟨?_, by decide, by decide, by decide⟩
  simp only [searchData]
  apply List.filter_eq_self.mpr
  intro r hr
  rw [tDot, List.mem_singleton] at hr
  subst hr
  decide

/-- C5: daily_trends is in strictly ascending date order and each entry
carries the revenue and qty sums over the rows of exactly its date; on
the scenario table the result is the two stated entries. -/
theorem c5_daily_trends :
    (∀ t : Table, t ≠ [] →
      List.Pairwise
        (fun a b : DailyEntry => Date.le a.date b.date ∧ a.date ≠ b.date)
        (dailyTrendsOf t) ∧
      ∀ e ∈ dailyTrendsOf t,
        e.revenue = gsum (groupRows t (fun r => some r.date) e.date)
            (fun r => r.revenue) ∧
        e.qty = gsum (groupRows t (fun r => some r.date) e.date)
            (fun r => r.qty)) ∧
    dailyTrendsOf scenarioTable =
      [⟨⟨2024, 1, 15⟩, 163000, 9⟩, ⟨⟨2024, 1, 16⟩, 15000, 10⟩] := by
  constructor
  · intro t _
    constructor
    · unfold dailyTrendsOf
      rw [List.pairwise_map]
      have hsorted : List.Pairwise Date.le
          (groupKeys Date.le t (fun r => some r.date)) := by
        unfold groupKeys
        exact List.sorted_insertionSort Date.le _
      have hnodup : (groupKeys Date.le t (fun r => some r.date)).Nodup :=
        nodup_groupKeys Date.le t (fun r => some r.date)
      exact hsorted.and hnodup
    · intro e he
      unfold dailyTrendsOf at he
      rcases List.mem_map.mp he with ⟨k, _, rfl⟩
      exact ⟨rfl, rfl⟩
  · norm_num [dailyTrendsOf, scenarioTable, scenarioRaw, cleanRows, groupKeys,
      uniqueFirst, uniqueAux, groupRows, gsum, List.insertionSort,
      List.orderedInsert, Date.le, Date.mk.injEq, List.filter_cons, DailyEntry.mk.injEq]

/-- C5 witness: the scenario table is non-empty and its daily trend dates
are strictly ascending. -/
theorem c5_witness :
    scenarioTable ≠ [] ∧
    List.Pairwise
      (fun a b : DailyEntry => Date.le a.date b.date ∧ a.date ≠ b.date)
      (dailyTrendsOf scenarioTable) := by
  have hne : scenarioTable ≠ [] := by decide
  exact ⟨hne, (c5_daily_trends.1 scenarioTable hne).1⟩

/-- C4 (amended): for a non-empty table in which every row carries a
menu_item and every revenue is exact at two decimal places (so that the
per-group round(2) is the identity), the total_revenue column of
menu_performance sums to the revenue column total: grouping partitions
the rows.  For revenues finer than two decimals the rounding breaks the
identity — see the counterexample. -/
theorem c4_partition (t : Table) (_hne : t ≠ [])
    (hmenu : ∀ r ∈ t, r.menu_item.isSome = true)
    (hdec : ∀ r ∈ t, TwoDec r.revenue) :
    ((menuRecordsOf t).map (fun m => m.total_revenue)).sum
      = gsum t (fun r => r.revenue) := by
  have key : (menuRecordsOf t).map (fun m => m.total_revenue)
      = (groupKeys strLe t (fun r => r.menu_item)).map
          (fun k => roundQ 2
            (gsum (groupRows t (fun r => r.menu_item) k) (fun r => r.revenue))) := by
    unfold menuRecordsOf menuBase
    rw [List.map_map, List.map_map]
    rfl
  rw [key]
  have hround : ∀ k ∈ groupKeys strLe t (fun r => r.menu_item),
      roundQ 2 (gsum (groupRows t (fun r => r.menu_item) k) (fun r => r.revenue))
        = gsum (groupRows t (fun r => r.menu_item) k) (fun r => r.revenue) := by
    intro k _
    apply roundQ2_of_twoDec
    apply twoDec_gsum
    intro x hx
    rw [groupRows] at hx
    exact hdec x (List.mem_filter.mp hx).1
  rw [List.map_congr_left hround]
  apply sum_groupRows t (fun r => r.menu_item) (fun r => r.revenue)
    (groupKeys strLe t (fun r => r.menu_item))
    (nodup_groupKeys strLe t (fun r => r.menu_item))
  intro x hx
  rcases Option.isSome_iff_exists.mp (hmenu x hx) with ⟨k, hk⟩
  exact ⟨k, (mem_groupKeys strLe t (fun r => r.menu_item) k).mpr ⟨x, hx, hk⟩, hk⟩

/-- C4 witness: on the two-item table with integer revenues 10 and 20 the
per-item totals sum to the column total. -/
theorem c4_witness :
    (tPart ≠ [] ∧ (∀ r ∈ tPart, r.menu_item.isSome = true) ∧
      (∀ r ∈ tPart, TwoDec r.revenue)) ∧
    ((menuRecordsOf tPart).map (fun m => m.total_revenue)).sum
      = gsum tPart (fun r => r.revenue) := by
  have h1 : tPart ≠ [] := by decide
  have h2 : ∀ r ∈ tPart, r.menu_item.isSome = true := by decide
  have h3 : ∀ r ∈ tPart, TwoDec r.revenue := by
    intro r hr
    rw [tPart] at hr
    simp only [List.mem_cons, List.not_mem_nil, or_false] at hr
    rcases hr with rfl | rfl <;> norm_num [mkRow, TwoDec]
  exact ⟨⟨h1, h2, h3⟩, c4_partition tPart h1 h2 h3⟩

/-- C4 counterexample: with two one-row menu groups of revenue 1/1000
each, the rounded per-item totals are both 0 while the revenue column
sums to 1/500, so the partition identity fails as stated (it holds only
up to the round(2) applied to the grouped totals). -/
theorem c4_counterexample :
    tRound ≠ [] ∧
    (∀ r ∈ tRound, r.menu_item.isSome = true) ∧
    ((menuRecordsOf tRound).map (fun m => m.total_revenue)).sum = 0 ∧
    gsum tRound (fun r => r.revenue) = 1 / 500 ∧
    ((menuRecordsOf tRound).map (fun m => m.total_revenue)).sum
      ≠ gsum tRound (fun r => r.revenue) := by
  have hkey : (menuRecordsOf tRound).map (fun m => m.total_revenue)
      = (groupKeys strLe tRound (fun r => r.menu_item)).map
          (fun k => roundQ 2
            (gsum (groupRows tRound (fun r => r.menu_item) k) (fun r => r.revenue))) := by
    unfold menuRecordsOf menuBase
    rw [List.map_map, List.map_map]
    rfl
  have hfloor : ⌊(1 : ℚ) / 10⌋ = 0 := by
    norm_num [Int.floor_eq_iff]
  have hr : roundQ 2 ((1 : ℚ) / 1000) = 0 := by
    have harg : (1 : ℚ) / 1000 * 10 ^ 2 = 1 / 10 := by norm_num
    rw [roundQ, harg, rhe, hfloor]
    norm_num
  have hsum : ((menuRecordsOf tRound).map (fun m => m.total_revenue)).sum = 0 := by
    rw [hkey]
    have hc : ('A' = 'B' ∨ 'A'.toNat < 'B'.toNat) = True := eq_true (by decide)
    have hS1 : ("Item A" = "Item A") = True := eq_true rfl
    have hS2 : ("Item A" = "Item B") = False := eq_false (by decide)
    have hS3 : ("Item B" = "Item A") = False := eq_false (by decide)
    have hS4 : ("Item B" = "Item B") = True := eq_true rfl
    norm_num [tRound, mkRow, groupKeys, uniqueFirst, uniqueAux, groupRows, gsum,
      List.insertionSort, List.orderedInsert, strLe, clistLeB, List.filter_cons,
      hr, hc, hS1, hS2, hS3, hS4]
  have htot : gsum tRound (fun r => r.revenue) = 1 / 500 := by
    norm_num [tRound, mkRow, gsum]
  refine ⟨by decide, by decide, hsum, htot, ?_⟩
  rw [hsum, htot]
  norm_num

/-- C7: when every row carries a customer_segment and the grand total
revenue T is non-zero, every revenue_share cell is a finite value and the
shares sum to 100 within the rounding tolerance n * (1/200 + 1/(2|T|)),
n the number of segments: each share is rounded to 2 decimals (error at
most 1/200) and is computed from the segment total itself rounded to 2
decimals (error at most (100/|T|) * 1/200). -/
theorem c7_revenue_share (t : Table)
    (hseg : ∀ r ∈ t, r.customer_segment.isSome = true)
    (hT : gsum t (fun r => r.revenue) ≠ 0) :
    (∀ rec ∈ segmentRecordsOf t, ∃ q, rec.revenue_share = PFloat.val q) ∧
    |((segmentRecordsOf t).map (fun rec => rec.revenue_share.toRat)).sum - 100|
      ≤ (segmentRecordsOf t).length *
          (1 / 200 + 1 / (2 * |gsum t (fun r => r.revenue)|)) := by
  set T := gsum t (fun r => r.revenue) with hTdef
  set keys := groupKeys strLe t (fun r => r.customer_segment) with hkeys
  set S := fun k => gsum (groupRows t (fun r => r.customer_segment) k)
    (fun r => r.revenue) with hSdef
  have habs : (0 : ℚ) < |T| := abs_pos.mpr hT
  constructor
  · intro rec hrec
    unfold segmentRecordsOf at hrec
    rcases List.mem_map.mp hrec with ⟨k, _, rfl⟩
    refine ⟨roundQ 2 (roundQ 2 (S k) * 100 / T), ?_⟩
    show (pdiv (roundQ 2 (S k) * 100) T).round2 = _
    rw [pdiv, if_pos hT]
    rfl
  · have hrepr : (segmentRecordsOf t).map (fun rec => rec.revenue_share.toRat)
        = keys.map (fun k => roundQ 2 (roundQ 2 (S k) * 100 / T)) := by
      unfold segmentRecordsOf
      rw [List.map_map]
      apply List.map_congr_left
      intro k _
      show (pdiv (roundQ 2 (S k) * 100) T).round2.toRat = _
      rw [pdiv, if_pos hT]
      rfl
    have hcov : ∀ x ∈ t, ∃ k ∈ keys, x.customer_segment = some k := by
      intro x hx
      rcases Option.isSome_iff_exists.mp (hseg x hx) with ⟨k, hk⟩
      exact ⟨k, (mem_groupKeys strLe t (fun r => r.customer_segment) k).mpr
        ⟨x, hx, hk⟩, hk⟩
    have hGsum : (keys.map (fun k => S k * (100 / T))).sum = 100 := by
      rw [List.sum_map_mul_right]
      rw [sum_groupRows t (fun r => r.customer_segment) (fun r => r.revenue) keys
        (nodup_groupKeys strLe t (fun r => r.customer_segment)) hcov]
      field_simp
    have hstep : ∀ k ∈ keys,
        |roundQ 2 (roundQ 2 (S k) * 100 / T) - S k * (100 / T)|
          ≤ 1 / 200 + 1 / (2 * |T|) := by
      intro k _
      have h1 : |roundQ 2 (roundQ 2 (S k) * 100 / T) - roundQ 2 (S k) * 100 / T|
          ≤ 1 / 200 := abs_roundQ2_sub _
      have h2 : |roundQ 2 (S k) * 100 / T - S k * (100 / T)| ≤ 1 / (2 * |T|) := by
        have e : roundQ 2 (S k) * 100 / T - S k * (100 / T)
            = (roundQ 2 (S k) - S k) * (100 / T) := by
          ring
        rw [e, abs_mul]
        have h3 : |roundQ 2 (S k) - S k| ≤ 1 / 200 := abs_roundQ2_sub _
        have h4 : |100 / T| = 100 / |T| := by
          rw [abs_div]
          norm_num
        rw [h4]
        calc |roundQ 2 (S k) - S k| * (100 / |T|)
            ≤ 1 / 200 * (100 / |T|) := by
              apply mul_le_mul_of_nonneg_right h3
              positivity
          _ = 1 / (2 * |T|) := by
              field_simp
              ring
      calc |roundQ 2 (roundQ 2 (S k) * 100 / T) - S k * (100 / T)|
          ≤ |roundQ 2 (roundQ 2 (S k) * 100 / T) - roundQ 2 (S k) * 100 / T|
            + |roundQ 2 (S k) * 100 / T - S k * (100 / T)| :=
            abs_sub_le _ _ _
        _ ≤ 1 / 200 + 1 / (2 * |T|) := add_le_add h1 h2
    have hlen : (segmentRecordsOf t).length = keys.length := by
      unfold segmentRecordsOf
      rw [List.length_map]
    rw [hrepr, hlen]
    calc |(keys.map (fun k => roundQ 2 (roundQ 2 (S k) * 100 / T))).sum - 100|
        = |(keys.map (fun k => roundQ 2 (roundQ 2 (S k) * 100 / T))).sum
            - (keys.map (fun k => S k * (100 / T))).sum| := by
          rw [hGsum]
      _ ≤ keys.length * (1 / 200 + 1 / (2 * |T|)) :=
          abs_sum_sub_sum_le keys _ _ _ hstep

/-- C7 witness: on the two-segment table with revenues 100 and 300 the
shares are finite and sum to 100 within tolerance. -/
theorem c7_witness :
    ((∀ r ∈ tShare, r.customer_segment.isSome = true) ∧
      gsum tShare (fun r => r.revenue) ≠ 0) ∧
    ((∀ rec ∈ segmentRecordsOf tShare, ∃ q, rec.revenue_share = PFloat.val q) ∧
      |((segmentRecordsOf tShare).map (fun rec => rec.revenue_share.toRat)).sum - 100|
        ≤ (segmentRecordsOf tShare).length *
            (1 / 200 + 1 / (2 * |gsum tShare (fun r => r.revenue)|))) := by
  have h1 : ∀ r ∈ tShare, r.customer_segment.isSome = true := by decide
  have h2 : gsum tShare (fun r => r.revenue) ≠ 0 := by
    norm_num [gsum, tShare, mkRow]
  exact ⟨⟨h1, h2⟩, c7_revenue_share tShare h1 h2⟩

/-- C8: on a table whose avg_price column is finite and whose revenue,
qty and avg_price columns each have non-degenerate variance, the rounded
Pearson matrix of get_correlation_analysis is symmetric and carries
exactly 1 on its diagonal. -/
theorem c8_correlation (t : Table)
    (_hfin : ∀ r ∈ t, r.avg_price.isVal = true)
    (h1 : scovQ (colVals t .revenue) (colVals t .revenue) ≠ 0)
    (h2 : scovQ (colVals t .qty) (colVals t .qty) ≠ 0)
    (h3 : scovQ (colVals t .avg_price) (colVals t .avg_price) ≠ 0) :
    ∃ c, getCorrelationAnalysis (some t) = some c ∧
      (∀ a b, c.matrix a b = c.matrix b a) ∧
      (∀ a, c.matrix a a = RFloat.val 1) := by
  refine ⟨_, rfl, ?_, ?_⟩
  · intro a b
    show (corrEntryR (colVals t a) (colVals t b)).round3
        = (corrEntryR (colVals t b) (colVals t a)).round3
    rw [corrEntryR_comm]
  · intro a
    show (corrEntryR (colVals t a) (colVals t a)).round3 = RFloat.val 1
    have hne : scovQ (colVals t a) (colVals t a) ≠ 0 := by
      cases a
      · exact h1
      · exact h2
      · exact h3
    rw [corrEntryR_self _ hne]
    show RFloat.val (round3R 1) = RFloat.val 1
    rw [round3R_one]

/-- C8 witness: the three-row table with revenues 1, 2, 3, quantities
1, 1, 2 and finite average prices has non-degenerate columns, and its
correlation matrix is symmetric with unit diagonal. -/
theorem c8_witness :
    ((∀ r ∈ tCorr, r.avg_price.isVal = true) ∧
      scovQ (colVals tCorr .revenue) (colVals tCorr .revenue) ≠ 0 ∧
      scovQ (colVals tCorr .qty) (colVals tCorr .qty) ≠ 0 ∧
      scovQ (colVals tCorr .avg_price) (colVals tCorr .avg_price) ≠ 0) ∧
    (∃ c, getCorrelationAnalysis (some tCorr) = some c ∧
      (∀ a b, c.matrix a b = c.matrix b a) ∧
      (∀ a, c.matrix a a = RFloat.val 1)) := by
  have hfin : ∀ r ∈ tCorr, r.avg_price.isVal = true := by decide
  have h1 : scovQ (colVals tCorr .revenue) (colVals tCorr .revenue) ≠ 0 := by
    norm_num [scovQ, colVals, meanQ, tCorr, mkRow, pdiv, PFloat.toRat]
  have h2 : scovQ (colVals tCorr .qty) (colVals tCorr .qty) ≠ 0 := by
    norm_num [scovQ, colVals, meanQ, tCorr, mkRow, pdiv, PFloat.toRat]
  have h3 : scovQ (colVals tCorr .avg_price) (colVals tCorr .avg_price) ≠ 0 := by
    norm_num [scovQ, colVals, meanQ, tCorr, mkRow, pdiv, PFloat.toRat]
  exact ⟨⟨hfin, h1, h2, h3⟩, c8_correlation tCorr hfin h1 h2 h3⟩

/-- C1 (code behaviour at the failing input): loading a table with a
qty = 0 row raises no exception, but the row's avg_price becomes the
IEEE infinity, not a skippable sentinel: the menu-level mean of avg_price
is then infinity — the row is not excluded from the price-based mean,
while the claimed policy (NaN sentinel, skipped by mean) would give 25
here.  Sum-based aggregates do count the row: total_revenue is 85100. -/
theorem c1_qty_zero_behaviour :
    (loadDataset ⟨none, none⟩ rawC1).1 = Except.ok () ∧
    (cleanRows rawC1).map (fun r => r.avg_price) = [PFloat.inf, PFloat.val 25] ∧
    (menuRecordsOf (cleanRows rawC1)).map
        (fun m => (m.menu_item, m.avg_price, m.total_revenue, m.total_qty))
      = [("Nasi Goreng", PFloat.inf, (85100 : ℚ), (4 : ℚ))] := by
  refine ⟨rfl, ?_, ?_⟩
  · norm_num [cleanRows, rawC1, pdiv]
  · have e85100 : roundQ 2 (85100 : ℚ) = 85100 :=
      roundQ2_of_twoDec _ (by norm_num [TwoDec])
    have e4 : roundQ 2 (4 : ℚ) = 4 :=
      roundQ2_of_twoDec _ (by norm_num [TwoDec])
    have hne1 : (PFloat.inf = PFloat.neginf) = False :=
      eq_false (fun h => PFloat.noConfusion h)
    have hne2 : (PFloat.val 25 = PFloat.neginf) = False :=
      eq_false (fun h => PFloat.noConfusion h)
    norm_num [menuRecordsOf, menuBase, cleanRows, rawC1, groupKeys, uniqueFirst,
      uniqueAux, groupRows, gsum, List.insertionSort, List.orderedInsert, pdiv,
      pmean, PFloat.round2, PFloat.isNan, PFloat.toRat, List.filter_cons,
      e85100, e4, hne1, hne2]

end DSCA
